import Mathlib

/-!
Verification development for the mgi repository (a minimal git-like
version-control core written in Go).

The Go source is shallowly embedded below.  Machine integers (uint32,
uint16) are modelled as Nat with explicit reductions modulo 2^32 / 2^16
at the points where the Go code serializes them.  Byte slices are
List Nat (each element a byte value).  Go strings are Lean Strings; the
staged paths and all header text are ASCII, for which Char.toNat is
exactly the Go byte value.  The SHA-1 function from crypto/sha1 is an
external library, so every index/object operation is parameterized by a
hash function hf : List Nat -> List Nat standing for sha1.Sum; concrete
evaluations instantiate it with the executable stand-in sumHash.
Filesystem errors are out of scope: the only fallible operations
modelled are the ones whose failure the source itself constructs.
-/

namespace Mgi

/-- Byte view of a Go string (ASCII assumption: one Char per byte). -/
def strBytes (s : String) : List Nat := s.data.map Char.toNat

/-- Go string built back from raw bytes (string(data) over ASCII bytes). -/
def bytesStr (l : List Nat) : String := String.mk (l.map Char.ofNat)

/-- binary.BigEndian serialization of a uint32 value. -/
def u32be (n : Nat) : List Nat := [n / 16777216 % 256, n / 65536 % 256, n / 256 % 256, n % 256]

/-- binary.BigEndian serialization of a uint16 value. -/
def u16be (n : Nat) : List Nat := [n / 256 % 256, n % 256]

/-- binary.BigEndian.Uint32 of a 4-byte slice. -/
def beU32 : List Nat → Nat
  | [a, b, c, d] => a * 16777216 + b * 65536 + c * 256 + d
  | _ => 0

/-- binary.BigEndian.Uint16 of a 2-byte slice. -/
def beU16 : List Nat → Nat
  | [a, b] => a * 256 + b
  | _ => 0

/-- Lowercase hex digit, as produced by the %x verb. -/
def hexDigit (n : Nat) : Char := if n < 10 then Char.ofNat (48 + n) else Char.ofNat (87 + n)

/-- Hex characters of a byte list (fmt.Sprintf with the %x verb). -/
def hexChars : List Nat → List Char
  | [] => []
  | b :: bs => hexDigit (b / 16 % 16) :: hexDigit (b % 16) :: hexChars bs

/-- Hash.String: lowercase hex of the digest bytes. -/
def hexStr (l : List Nat) : String := String.mk (hexChars l)

/-- Bytewise lexicographic strict order, the order Go uses for string <. -/
def bytesLt : List Nat → List Nat → Bool
  | _, [] => false
  | [], _ :: _ => true
  | a :: as, b :: bs => if a < b then true else if b < a then false else bytesLt as bs

/-- Go string comparison a < b (bytewise). -/
def strLt (a b : String) : Bool := bytesLt (strBytes a) (strBytes b)

/-- Insert into a list sorted by the strict order lt (helper for sortByLt). -/
def insertLt {α : Type} (lt : α → α → Bool) (a : α) : List α → List α
  | [] => [a]
  | b :: bs => if lt a b then a :: b :: bs else b :: insertLt lt a bs

/-- sort.Slice with the given less function: ascending insertion sort.
On the unique-key lists this code sorts, the result is the unique sorted
permutation, which is all sort.Slice guarantees. -/
def sortByLt {α : Type} (lt : α → α → Bool) (l : List α) : List α :=
  l.foldr (insertLt lt) []

/-- Padding loop of index.go: append NUL bytes while the buffer is shorter
than the target length n. -/
def padTo (l : List Nat) (n : Nat) : List Nat := l ++ List.replicate (n - l.length) 0

/-- Stand-in type for crypto/sha1: a function from message bytes to digest bytes. -/
def HashFn : Type := List Nat → List Nat

/-- Executable stand-in hash used for concrete evaluations: 20 bytes whose
first two bytes are the byte-sum and the length of the message modulo 256.
Any single-byte change of the message changes the first output byte. -/
def sumHash : HashFn :=
  fun l => (l.foldl (fun a b => a + b) 0) % 256 :: l.length % 256 :: List.replicate 18 0

/-- strconv.Atoi (decimal integer parse; overflow is not modelled because
the only version string this repository parses is "2"). -/
def atoi (s : String) : Except String Int :=
  let signed : Int × List Char :=
    match s.data with
    | '+' :: r => (1, r)
    | '-' :: r => (-1, r)
    | r => (1, r)
  if signed.2.isEmpty then Except.error "invalid syntax"
  else if signed.2.all Char.isDigit then
    Except.ok (signed.1 * ((signed.2.foldl (fun a c => a * 10 + (c.toNat - 48)) 0 : Nat) : Int))
  else Except.error "invalid syntax"

/-- uint32(v) conversion of a Go int: two's-complement wrap to 32 bits. -/
def intToU32 (v : Int) : Nat := (v % (4294967296 : Int)).toNat

/-- IndexEntry from index.go: one staged file's metadata snapshot.
Hash is the 20 raw digest bytes behind the *Hash pointer. -/
structure IndexEntry where
  CTimeSecs : Nat
  CTimeNanoSecs : Nat
  MTimeSecs : Nat
  MTimeNanoSecs : Nat
  Dev : Nat
  Ino : Nat
  Mode : Nat
  Uid : Nat
  Gid : Nat
  FileSize : Nat
  Hash : List Nat
  Flags : Nat
  Path : String
deriving DecidableEq

/-- Index from index.go.  Hash is none until a file has been read
(the Go field is a nil pointer then). -/
structure Index where
  Signature : String
  Version : String
  EntryCount : Nat
  Entries : List IndexEntry
  Hash : Option (List Nat)
deriving DecidableEq

/-- Serialization of one index entry (index.go, Marshal lines 129-152):
ten big-endian uint32 fields, 20 digest bytes, uint16 flags, the path,
a NUL terminator, then NUL padding up to ((62+len+8)/8)*8 bytes. -/
def entryBytes (e : IndexEntry) : List Nat :=
  let fixed := u32be e.CTimeSecs ++ u32be e.CTimeNanoSecs ++ u32be e.MTimeSecs ++
    u32be e.MTimeNanoSecs ++ u32be e.Dev ++ u32be e.Ino ++ u32be e.Mode ++
    u32be e.Uid ++ u32be e.Gid ++ u32be e.FileSize ++ e.Hash ++ u16be e.Flags
  let withPath := fixed ++ strBytes e.Path ++ [0]
  padTo withPath (((62 + (strBytes e.Path).length + 8) / 8) * 8)

/-- IndexService.Marshal (index.go lines 105-156): signature check, header,
path-ized entries, and a trailing digest of everything written so far. -/
def marshalIndex (hf : HashFn) (idx : Index) : Except String (List Nat) :=
  if (strBytes idx.Signature).length ≠ 4 then Except.error "signature must be 4 bytes long"
  else
    match atoi idx.Version with
    | Except.error m => Except.error m
    | Except.ok v =>
      let sorted := sortByLt (fun a b => strLt a.Path b.Path) idx.Entries
      let payload := strBytes idx.Signature ++ u32be (intToU32 v) ++ u32be idx.EntryCount ++
        (sorted.map entryBytes).flatten
      Except.ok (payload ++ hf payload)

/-- readNBytes (index.go lines 303-316): Peek-then-Discard n bytes; the
bufio reader yields an error when fewer than n bytes remain. -/
def readNB (n : Nat) (l : List Nat) : Except String (List Nat × List Nat) :=
  if l.length < n then Except.error "EOF" else Except.ok (l.take n, l.drop n)

/-- reader.ReadBytes 0 followed by dropping the terminator (index.go lines
285-290): error when no NUL byte remains. -/
def readPathBytes (l : List Nat) : Except String (String × List Nat) :=
  let ps := l.takeWhile (fun b => decide (b ≠ 0))
  if ps.length = l.length then Except.error "EOF"
  else Except.ok (bytesStr ps, l.drop (ps.length + 1))

/-- Decoding of one entry (index.go lines 211-296), including the decoder's
own padding formula ((62+len+1+8)/8)*8, whose discard result is ignored
exactly as reader.Discard's error is ignored in the source. -/
def readEntry (l : List Nat) : Except String (IndexEntry × List Nat) := do
  let (ct, l) ← readNB 4 l
  let (ctn, l) ← readNB 4 l
  let (mt, l) ← readNB 4 l
  let (mtn, l) ← readNB 4 l
  let (dev, l) ← readNB 4 l
  let (ino, l) ← readNB 4 l
  let (mo, l) ← readNB 4 l
  let (uid, l) ← readNB 4 l
  let (gid, l) ← readNB 4 l
  let (fsz, l) ← readNB 4 l
  let (hs, l) ← readNB 20 l
  let (fl, l) ← readNB 2 l
  let (p, l) ← readPathBytes l
  let totalEntryLen := ((62 + p.length + 1 + 8) / 8) * 8
  let padding := totalEntryLen - (62 + p.length + 1)
  let e : IndexEntry :=
    { CTimeSecs := beU32 ct, CTimeNanoSecs := beU32 ctn, MTimeSecs := beU32 mt,
      MTimeNanoSecs := beU32 mtn, Dev := beU32 dev, Ino := beU32 ino, Mode := beU32 mo,
      Uid := beU32 uid, Gid := beU32 gid, FileSize := beU32 fsz, Hash := hs,
      Flags := beU16 fl, Path := p }
  Except.ok (e, l.drop padding)

/-- The entry loop of IndexService.Read (index.go lines 209-297). -/
def readEntries : Nat → List Nat → Except String (List IndexEntry)
  | 0, _ => Except.ok []
  | n + 1, l => do
    let (e, l2) ← readEntry l
    let es ← readEntries n l2
    Except.ok (e :: es)

/-- Outcome of IndexService.Read: a Go run-time panic (out-of-range slice),
an error return, or a decoded index. -/
inductive ReadResult where
  | panicked : ReadResult
  | err : String → ReadResult
  | ok : Index → ReadResult
deriving DecidableEq

/-- IndexService.Read (index.go lines 172-301).  The argument is the result
of ioutil.ReadFile: none when the file does not exist (lazily created empty
index), some data otherwise.  Each header slice [a:b] panics when the data
is too short, in source order; the version check runs before the checksum
check; entries are decoded from data[12:len-20]. -/
def readIndex (hf : HashFn) : Option (List Nat) → ReadResult
  | none =>
    ReadResult.ok
      { Signature := "DIRC", Version := "2", EntryCount := 0, Entries := [], Hash := none }
  | some data =>
    if data.length < 4 then ReadResult.panicked
    else if data.length < 8 then ReadResult.panicked
    else if data.length < 12 then ReadResult.panicked
    else if data.length < 20 then ReadResult.panicked
    else
      let sig := bytesStr (data.take 4)
      let ver := toString (beU32 ((data.drop 4).take 4))
      let cnt := beU32 ((data.drop 8).take 4)
      let digest := data.drop (data.length - 20)
      if ver ≠ "2" then ReadResult.err ("unsupported version \"" ++ ver ++ "\"")
      else if hexStr digest ≠ hexStr (hf (data.take (data.length - 20))) then
        ReadResult.err "digests don't match"
      else if data.length - 20 < 12 then ReadResult.panicked
      else
        match readEntries cnt ((data.drop 12).take (data.length - 32)) with
        | Except.error m => ReadResult.err m
        | Except.ok entries =>
          ReadResult.ok
            { Signature := sig, Version := ver, EntryCount := cnt, Entries := entries,
              Hash := some digest }

/-- Entry with the given path and placeholder metadata, used for concrete
evaluations of the serializer. -/
def entryOfPath (p : String) : IndexEntry :=
  { CTimeSecs := 0, CTimeNanoSecs := 0, MTimeSecs := 0, MTimeNanoSecs := 0, Dev := 0,
    Ino := 0, Mode := 33188, Uid := 0, Gid := 0, FileSize := 0,
    Hash := List.replicate 20 0, Flags := p.length, Path := p }

/-- Core of IndexService.Add (index.go lines 89-100): replace every entry
whose path equals the new entry's path, else append and bump EntryCount.
The stat-derived metadata is already inside the entry argument. -/
def addEntry (es : List IndexEntry) (e : IndexEntry) : List IndexEntry :=
  if es.any (fun v => v.Path = e.Path) then es.map (fun v => if v.Path = e.Path then e else v)
  else es ++ [e]

/-- TreeEntry from object.go in the main package: one line of a tree object. -/
structure TreeEntry where
  mode : Nat
  path : String
  sha1 : List Nat
deriving DecidableEq

/-- Commit from object.go: AuthorTime is modelled by its Unix seconds and
its Zone() UTC offset in seconds, the two projections Marshal uses. -/
structure CommitObj where
  Parent : String
  Tree : String
  Author : String
  AuthorEmail : String
  AuthorUnix : Int
  AuthorOffset : Int
  Message : String
deriving DecidableEq

/-- The three storable object kinds (Blob, Tree, Commit of object.go). -/
inductive GitObj where
  | blob : List Nat → GitObj
  | tree : List TreeEntry → GitObj
  | commit : CommitObj → GitObj
deriving DecidableEq

/-- fmt %o: octal digits of a mode. -/
def octStr (n : Nat) : String := String.mk (Nat.toDigits 8 n)

/-- Sign chosen for the timezone field (Commit.Marshal lines 214-219):
"+" for strictly positive offsets, "-" otherwise, zero included. -/
def tzSign (offset : Int) : String := if 0 < offset then "+" else "-"

/-- fmt %02d. -/
def pad2 (n : Nat) : String := if n < 10 then "0" ++ toString n else toString n

/-- Timezone field %s%02d%02d built from sign, fo/3600 and (fo/60)%60
where fo is the absolute offset in seconds. -/
def tzField (offset : Int) : String :=
  tzSign offset ++ pad2 (offset.natAbs / 3600) ++ pad2 (offset.natAbs / 60 % 60)

/-- authorTime of Commit.Marshal: "%d %s%02d%02d" over the absolute Unix
seconds and the timezone field. -/
def authorTimeStr (unix offset : Int) : String :=
  toString unix.natAbs ++ (" " ++ tzField offset)

/-- The "author ..." line of a marshalled commit. -/
def authorLine (c : CommitObj) : String :=
  "author " ++ c.Author ++ (" <" ++ (c.AuthorEmail ++
    ("> " ++ authorTimeStr c.AuthorUnix c.AuthorOffset)))

/-- The "committer ..." line of a marshalled commit. -/
def committerLine (c : CommitObj) : String :=
  "committer " ++ c.Author ++ (" <" ++ (c.AuthorEmail ++
    ("> " ++ authorTimeStr c.AuthorUnix c.AuthorOffset)))

/-- The optional "parent ..." line: present only when Parent is nonempty. -/
def parentPart (c : CommitObj) : String :=
  if 0 < c.Parent.length then "parent " ++ c.Parent ++ "\n" else ""

/-- Payload of Commit.Marshal (object part of part_003, lines 198-232). -/
def commitBody (c : CommitObj) : String :=
  "tree " ++ c.Tree ++ "\n" ++ parentPart c ++ authorLine c ++ "\n" ++
    committerLine c ++ "\n" ++ "\n" ++ c.Message ++ "\n"

/-- One line of Tree.Marshal: "%o %s\x00%s" over mode, name and the 20 raw
digest bytes. -/
def treeEntryBytes (e : TreeEntry) : List Nat :=
  strBytes (octStr e.mode ++ " " ++ e.path) ++ [0] ++ e.sha1

/-- Marshal of the three object kinds: "<type> <decimal-length>\x00" header
followed by the payload. -/
def marshalObj : GitObj → List Nat
  | GitObj.blob d => strBytes ("blob " ++ toString d.length) ++ [0] ++ d
  | GitObj.tree es =>
    let data := (es.map treeEntryBytes).flatten
    strBytes ("tree " ++ toString data.length) ++ [0] ++ data
  | GitObj.commit c =>
    let data := strBytes (commitBody c)
    strBytes ("commit " ++ toString data.length) ++ [0] ++ data

/-- Fan-out path of a stored object relative to the repository root:
objects/<first two hex chars>/<remaining hex chars>. -/
def objPath (hex : String) : String :=
  "objects/" ++ String.mk (hex.data.take 2) ++ "/" ++ String.mk (hex.data.drop 2)

/-- ioutil.WriteFile semantics on the object directory: overwrite the file
at that path when it exists, create it otherwise. -/
def upsertObj (l : List (String × GitObj)) (p : String) (v : GitObj) : List (String × GitObj) :=
  if l.any (fun kv => kv.1 = p) then l.map (fun kv => if kv.1 = p then (p, v) else kv)
  else l ++ [(p, v)]

/-- ObjectService.StoreObject (part_003 lines 259-288): marshal, hash, and
write the object at its fan-out path.  The stored value is the object whose
zlib-compressed marshal bytes land on disk; zlib is an injective external
encoder, so the object itself is kept as the file content model. -/
def storeObj (hf : HashFn) (o : GitObj) (fsys : List (String × GitObj)) :
    List Nat × List (String × GitObj) :=
  let data := marshalObj o
  let h := hf data
  (h, upsertObj fsys (objPath (hexStr h)) o)

/-- ObjectService.HashObject (part_003 lines 250-256): marshal and hash,
with no filesystem effect. -/
def hashObject (hf : HashFn) (o : GitObj) (fsys : List (String × GitObj)) :
    List Nat × List (String × GitObj) :=
  (hf (marshalObj o), fsys)

/-- Repository state seen by MGIService: the object files, a log of
writeSubTree invocations (instrumentation, one normalized prefix per call),
the refs/heads/master file content if present, and the staged entries that
IndexService.Read would deliver to writeTree. -/
structure MState where
  objects : List (String × GitObj)
  calls : List String
  refsMaster : Option String
  indexEntries : List IndexEntry
deriving DecidableEq

/-- storeObj lifted to the repository state. -/
def storeObjectM (hf : HashFn) (o : GitObj) (st : MState) : List Nat × MState :=
  let r := storeObj hf o st.objects
  (r.1, { st with objects := r.2 })

/-- strings.HasPrefix. -/
def strHasPre (pre s : String) : Bool := pre.data.isPrefixOf s.data

/-- strings.HasSuffix(s, "/"): does the last character equal a slash. -/
def endsSlash (s : String) : Bool := s.data.getLast? == some '/'

/-- Prefix normalization at the top of writeSubTree (mgi.go lines 134-139):
"." becomes "", and a nonempty prefix gets a trailing slash. -/
def normPre (s : String) : String :=
  let s1 := if s = "." then "" else s
  if 0 < s1.length ∧ endsSlash s1 = false then s1 ++ "/" else s1

/-- filepath.Split: everything up to and including the final slash, and the
remainder.  The staged paths are clean and relative, where Split does no
other rewriting. -/
def splitPath (s : String) : String × String :=
  let file := (s.data.reverse.takeWhile (fun c => decide (c ≠ '/'))).reverse
  (String.mk (s.data.take (s.data.length - file.length)), String.mk file)

/-- strings.TrimPrefix. -/
def trimPre (s pre : String) : String :=
  if strHasPre pre s then String.mk (s.data.drop pre.data.length) else s

/-- strings.Split(s, "/")[0]: the first path segment. -/
def firstSeg (s : String) : String := String.mk (s.data.takeWhile (fun c => decide (c ≠ '/')))

/-- filepath.Join(subTree, directChild) + "/" for a subTree that is empty
or slash-terminated, as established by normPre. -/
def joinSlash (subT dc : String) : String := (if subT = "" then dc else subT ++ dc) ++ "/"

/-- Go map lookup existence check on the children map. -/
def lookupTE (l : List (String × TreeEntry)) (k : String) : Bool := l.any (fun kv => kv.1 = k)

/-- Go map assignment children[k] = v. -/
def upsertTE (l : List (String × TreeEntry)) (k : String) (v : TreeEntry) :
    List (String × TreeEntry) :=
  if l.any (fun kv => kv.1 = k) then l.map (fun kv => if kv.1 = k then (k, v) else kv)
  else l ++ [(k, v)]

/-- The entry loop of writeSubTree (mgi.go lines 142-178).  recL is the
recursive call for the next directory level. -/
def wstLoop (recL : String → MState → (Except String (List Nat)) × MState) (subT : String) :
    List IndexEntry → List (String × TreeEntry) → MState →
      (Except String (List (String × TreeEntry))) × MState
  | [], children, st => (Except.ok children, st)
  | e :: rest, children, st =>
    let dirFile := splitPath e.Path
    if dirFile.1 = subT then
      wstLoop recL subT rest
        (upsertTE children dirFile.2 { mode := e.Mode, path := dirFile.2, sha1 := e.Hash }) st
    else if strHasPre subT dirFile.1 then
      let relEntry := trimPre dirFile.1 subT
      let dc := firstSeg relEntry
      if lookupTE children dc then wstLoop recL subT rest children st
      else
        match recL (joinSlash subT dc) st with
        | (Except.error m, st2) => (Except.error m, st2)
        | (Except.ok h, st2) =>
          wstLoop recL subT rest (upsertTE children dc { mode := 0o40000, path := dc, sha1 := h }) st2
    else wstLoop recL subT rest children st

/-- MGIService.writeSubTree (mgi.go lines 133-201): normalize the prefix,
collect direct children and one subtree per distinct immediate
subdirectory, sort the collected entries by name, store the tree object,
and fail when there are no children.  General recursion is driven by a
fuel parameter that the concrete runs never exhaust; each invocation logs
its normalized prefix into calls. -/
def writeSubTree (hf : HashFn) : Nat → String → List IndexEntry → MState →
    (Except String (List Nat)) × MState
  | 0, _, _, st => (Except.error "recursion fuel exhausted", st)
  | Nat.succ fuel, subT0, entries, st =>
    let subT := normPre subT0
    let st1 := { st with calls := st.calls ++ [subT] }
    match wstLoop (fun d s => writeSubTree hf fuel d entries s) subT entries [] st1 with
    | (Except.error m, st2) => (Except.error m, st2)
    | (Except.ok children, st2) =>
      if 0 < children.length then
        let lines := sortByLt (fun a b => strLt a.path b.path) (children.map Prod.snd)
        let r := storeObjectM hf (GitObj.tree lines) st2
        (Except.ok r.1, r.2)
      else (Except.error "failed to write a tree", st2)

/-- MGIService.writeTree (mgi.go lines 119-129): build the root tree from
the staged entries (IndexService.Read is abstracted as the indexEntries
already held in the state). -/
def writeTree (hf : HashFn) (fuel : Nat) (st : MState) : (Except String (List Nat)) × MState :=
  writeSubTree hf fuel "." st.indexEntries st

/-- bytes.TrimSpace over the ASCII whitespace characters. -/
def isSpaceB (c : Char) : Bool :=
  c = ' ' || c = '\t' || c = '\n' || c = '\r' || c = Char.ofNat 11 || c = Char.ofNat 12

/-- MGIService.currentHead (mgi.go lines 107-117): empty parent when the
branch pointer file is absent, trimmed file content otherwise. -/
def currentHead : Option String → String
  | none => ""
  | some contents =>
    String.mk (((contents.data.dropWhile isSpaceB).reverse.dropWhile isSpaceB).reverse)

/-- MGIService.Commit (mgi.go lines 58-105): write the tree, read the
current head as parent, build and store the commit object, then overwrite
refs/heads/master with the new digest in hex plus a newline.  Author
identity and clock are inputs (environment variables and time.Now in the
source). -/
def commitOp (hf : HashFn) (fuel : Nat) (author email : String) (unix offset : Int)
    (msg : String) (st : MState) : (Except String (List Nat)) × MState :=
  match writeTree hf fuel st with
  | (Except.error m, st1) => (Except.error m, st1)
  | (Except.ok treeHash, st1) =>
    let parent := currentHead st1.refsMaster
    let c : CommitObj :=
      { Parent := parent, Tree := hexStr treeHash, Author := author, AuthorEmail := email,
        AuthorUnix := unix, AuthorOffset := offset, Message := msg }
    let r := storeObjectM hf (GitObj.commit c) st1
    (Except.ok r.1, { r.2 with refsMaster := some (hexStr r.1 ++ "\n") })

/-! Concrete sample data used by the closed evaluations below. -/

/-- Sample blob digests (any 20-byte values do). -/
def sampleH1 : List Nat := List.replicate 20 1

/-- Second sample digest. -/
def sampleH2 : List Nat := List.replicate 20 2

/-- Third sample digest. -/
def sampleH3 : List Nat := List.replicate 20 3

/-- Valid two-entry index whose paths have byte length 1: unique, NUL-free,
repo-relative, already in ascending path order, entry count correct. -/
def exIdx1 : Index :=
  { Signature := "DIRC", Version := "2", EntryCount := 2,
    Entries := [{ entryOfPath "a" with Hash := sampleH1 },
                { entryOfPath "b" with Hash := sampleH2 }],
    Hash := none }

/-- Valid empty index. -/
def exIdx0 : Index :=
  { Signature := "DIRC", Version := "2", EntryCount := 0, Entries := [], Hash := none }

/-- Bytes of the persisted empty index under the stand-in hash. -/
def exIdx0Bytes : List Nat := (marshalIndex sumHash exIdx0).toOption.getD []

/-- Staged entries of the tree-grouping scenario, in ascending path order. -/
def exTreeEntries : List IndexEntry :=
  [{ entryOfPath "a/b/c.txt" with Hash := sampleH1 },
   { entryOfPath "a/b/d.txt" with Hash := sampleH2 },
   { entryOfPath "a/bc.txt" with Hash := sampleH3 }]

/-- Fresh repository state holding the tree-grouping entries. -/
def exTreeState : MState :=
  { objects := [], calls := [], refsMaster := none, indexEntries := exTreeEntries }

/-- Expected tree object for the a/b/ directory. -/
def exTreeB : GitObj := GitObj.tree [⟨0o100644, "c.txt", sampleH1⟩, ⟨0o100644, "d.txt", sampleH2⟩]

/-- Digest of the a/b/ tree under the stand-in hash. -/
def exHashB : List Nat := sumHash (marshalObj exTreeB)

/-- Expected tree object for the a/ directory: one subtree entry b and one
blob entry bc.txt, sorted by name. -/
def exTreeA : GitObj := GitObj.tree [⟨0o40000, "b", exHashB⟩, ⟨0o100644, "bc.txt", sampleH3⟩]

/-- Digest of the a/ tree under the stand-in hash. -/
def exHashA : List Nat := sumHash (marshalObj exTreeA)

/-- Expected root tree object: a single subtree entry a. -/
def exTreeRoot : GitObj := GitObj.tree [⟨0o40000, "a", exHashA⟩]

/-- Digest of the root tree under the stand-in hash. -/
def exHashRoot : List Nat := sumHash (marshalObj exTreeRoot)

/-- Fresh repository state with one staged file, used by the commit witness. -/
def exCommitState : MState :=
  { objects := [], calls := [], refsMaster := none,
    indexEntries := [{ entryOfPath "f" with Hash := sampleH1 }] }

/-- Sample commit for the timezone-sign witness. -/
def exCommit : CommitObj :=
  { Parent := "", Tree := "abc", Author := "au", AuthorEmail := "em",
    AuthorUnix := 100, AuthorOffset := 0, Message := "init" }

/-- The commit object Commit builds (mgi.go lines 79-86), abbreviated. -/
def mkCommit (author email : String) (unix offset : Int) (msg parent treeHex : String) :
    CommitObj :=
  { Parent := parent, Tree := treeHex, Author := author, AuthorEmail := email,
    AuthorUnix := unix, AuthorOffset := offset, Message := msg }

/-- Root tree of the one-file commit scenario. -/
def exTreeF : GitObj := GitObj.tree [⟨0o100644, "f", sampleH1⟩]

/-- Expected first commit object of the one-file scenario: no parent. -/
def exCommitObj : CommitObj :=
  mkCommit "au" "em" 100 0 "init" "" (hexStr (sumHash (marshalObj exTreeF)))

end Mgi

deriving instance DecidableEq for Except

namespace Mgi

/-- C3: an index entry whose path has byte length L serializes to exactly
ceil((62 + L + 1) / 8) * 8 bytes: ten 4-byte fields, 20 digest bytes,
2 flag bytes, the path, its NUL terminator, and NUL padding to the next
8-byte boundary. -/
theorem padding_exact (e : IndexEntry) (h20 : e.Hash.length = 20) :
    (entryBytes e).length = ((62 + (strBytes e.Path).length + 1 + 7) / 8) * 8 := by
  simp [entryBytes, padTo, u32be, u16be, h20]
  omega

/-- Witness for padding_exact at the boundary path lengths 0, 1, 7, 8, 63. -/
theorem padding_exact_witness :
    (entryBytes (entryOfPath "")).length = 64 ∧
    (entryBytes (entryOfPath "a")).length = 64 ∧
    (entryBytes (entryOfPath "abcdefg")).length = 72 ∧
    (entryBytes (entryOfPath "abcdefgh")).length = 72 ∧
    (entryBytes (entryOfPath (String.mk (List.replicate 63 'x')))).length = 128 :=
  ⟨(padding_exact _ (by decide)).trans (by decide),
   (padding_exact _ (by decide)).trans (by decide),
   (padding_exact _ (by decide)).trans (by decide),
   (padding_exact _ (by decide)).trans (by decide),
   (padding_exact _ (by decide)).trans (by decide)⟩

/-- C9: IndexService.Read on an existing index file shorter than 20 bytes
(which covers every file shorter than 12 bytes) hits an out-of-range slice
while populating the header and trailing digest, a Go panic rather than an
error return. -/
theorem read_short_file_panics (hf : HashFn) (data : List Nat) (h : data.length < 20) :
    readIndex hf (some data) = ReadResult.panicked := by
  by_cases h4 : data.length < 4
  · simp [readIndex, h4]
  · by_cases h8 : data.length < 8
    · simp [readIndex, h4, h8]
    · by_cases h12 : data.length < 12
      · simp [readIndex, h4, h8, h12]
      · simp [readIndex, h4, h8, h12, h]

/-- Witness for read_short_file_panics on a 3-byte file. -/
theorem read_short_file_panics_witness :
    [0, 1, 2].length < 20 ∧ readIndex sumHash (some [0, 1, 2]) = ReadResult.panicked :=
  ⟨by decide, read_short_file_panics sumHash [0, 1, 2] (by decide)⟩

/-- C10: when the author-time UTC offset is exactly zero, the marshalled
author and committer lines end in the timezone field "-0000"; the "+" sign
appears exactly for strictly positive offsets. -/
theorem utc_offset_sign (c : CommitObj) (h : c.AuthorOffset = 0) :
    authorLine c = "author " ++ c.Author ++ (" <" ++ (c.AuthorEmail ++
      ("> " ++ (toString c.AuthorUnix.natAbs ++ " -0000")))) ∧
    committerLine c = "committer " ++ c.Author ++ (" <" ++ (c.AuthorEmail ++
      ("> " ++ (toString c.AuthorUnix.natAbs ++ " -0000")))) ∧
    ∀ off : Int, tzSign off = "+" ↔ 0 < off := by
  have htz : " " ++ tzField 0 = " -0000" := by decide
  refine ⟨?_, ?_, ?_⟩
  · simp only [authorLine, authorTimeStr, h, htz]
  · simp only [committerLine, authorTimeStr, h, htz]
  · intro off
    unfold tzSign
    by_cases hoff : 0 < off
    · simp [hoff]
    · simp only [if_neg hoff, hoff, iff_false]
      decide

/-- Witness for utc_offset_sign on a concrete zero-offset commit. -/
theorem utc_offset_sign_witness :
    authorLine exCommit = "author au <em> 100 -0000" :=
  (utc_offset_sign exCommit (by decide)).1.trans (by decide)

/-- C4: on the staged, path-sorted entries a/b/c.txt, a/bc.txt, a/b/d.txt,
tree synthesis stores exactly three tree objects: one for a/b/ holding the
blobs c.txt and d.txt, one for a/ holding the subtree b and the blob
bc.txt, and the root holding the subtree a; writeSubTree is invoked once
per distinct immediate subdirectory (prefixes "", a/, a/b/, each once),
and a/b/... is never grouped with a/bc... . -/
theorem tree_grouping_exact :
    writeSubTree sumHash 4 "." exTreeEntries exTreeState =
      (Except.ok exHashRoot,
        { objects := [(objPath (hexStr exHashB), exTreeB), (objPath (hexStr exHashA), exTreeA),
            (objPath (hexStr exHashRoot), exTreeRoot)],
          calls := ["", "a/", "a/b/"], refsMaster := none, indexEntries := exTreeEntries }) := by
  set_option maxRecDepth 8000 in decide

/-- C1: round-trip fails on a valid index.  The two-entry index with paths
"a" and "b" (unique, NUL-free, repo-relative, sorted) marshals
successfully, but decoding the marshalled bytes aborts with a read error:
after the first entry (path length 1) the decoder skips 8 padding bytes
the encoder never wrote, so the second entry is decoded from a wrong
offset and the digest field runs past the end of the entry area. -/
theorem index_roundtrip_misaligned :
    (marshalIndex sumHash exIdx1).toOption.isSome = true ∧
    readIndex sumHash (marshalIndex sumHash exIdx1).toOption = ReadResult.err "EOF" := by
  set_option maxRecDepth 8000 in decide

/-- C2 counterexample: flipping the single byte at offset 7 (the low byte
of the 4-byte version field, outside the trailing 20-byte digest) of the
persisted empty index makes Read fail with the unsupported-version error,
not the checksum-mismatch error. -/
theorem checksum_gate_counterexample :
    exIdx0Bytes.length = 32 ∧
    exIdx0Bytes[7]? = some 2 ∧
    readIndex sumHash (some (exIdx0Bytes.set 7 3)) =
      ReadResult.err "unsupported version \"3\"" ∧
    ReadResult.err "unsupported version \"3\"" ≠ ReadResult.err "digests don't match" := by
  decide

/-- Helper: when no staged entry lies at or below the prefix, the entry
loop of writeSubTree adds nothing and touches nothing. -/
theorem wstLoop_skip_all (recL : String → MState → (Except String (List Nat)) × MState)
    (subT : String) (es : List IndexEntry) (children : List (String × TreeEntry)) (st : MState)
    (h : ∀ e ∈ es, strHasPre subT (splitPath e.Path).1 = false) :
    wstLoop recL subT es children st = (Except.ok children, st) := by
  induction es with
  | nil => rfl
  | cons e rest ih =>
    have he : strHasPre subT (splitPath e.Path).1 = false := h e (by simp)
    have hrest : ∀ x ∈ rest, strHasPre subT (splitPath x.Path).1 = false :=
      fun x hx => h x (by simp [hx])
    have hne : ¬ (splitPath e.Path).1 = subT := by
      intro hEq
      rw [hEq] at he
      have hrefl : strHasPre subT subT = true := by
        simp [strHasPre, List.isPrefixOf_iff_prefix]
      rw [hrefl] at he
      cases he
    simp only [wstLoop]
    rw [if_neg hne, if_neg (by simp [he])]
    exact ih hrest

/-- C8: for every prefix with no descendant entries in the given entry
list (the empty index included), writeSubTree returns the
failed-to-write-a-tree error and stores no tree object: the object map is
unchanged, only the instrumentation log grows. -/
theorem empty_tree_rejected (hf : HashFn) (fuel : Nat) (subT : String)
    (entries : List IndexEntry) (st : MState) (hfuel : 0 < fuel)
    (h : ∀ e ∈ entries, strHasPre (normPre subT) (splitPath e.Path).1 = false) :
    writeSubTree hf fuel subT entries st =
      (Except.error "failed to write a tree",
        { st with calls := st.calls ++ [normPre subT] }) := by
  match fuel, hfuel with
  | Nat.succ fuel, _ =>
    simp only [writeSubTree]
    rw [wstLoop_skip_all _ _ _ _ _ h]
    rfl

/-- Witness for empty_tree_rejected: a commit attempted over an empty
index fails without storing anything. -/
theorem empty_tree_rejected_witness :
    writeSubTree sumHash 1 "." [] ⟨[], [], none, []⟩ =
      (Except.error "failed to write a tree", ⟨[], [""], none, []⟩) :=
  empty_tree_rejected sumHash 1 "." [] ⟨[], [], none, []⟩ (by decide) (by simp)

/-- Helper: replacing an entry by path keeps the path list unchanged. -/
theorem addEntry_paths_of_any (es : List IndexEntry) (e : IndexEntry)
    (hany : es.any (fun v => v.Path = e.Path) = true) :
    (addEntry es e).map (fun v => v.Path) = es.map (fun v => v.Path) := by
  unfold addEntry
  rw [if_pos hany, List.map_map]
  apply List.map_eq_map_iff.mpr
  intro v _
  by_cases hv : v.Path = e.Path
  · simp [hv]
  · simp [hv]

/-- Helper: addEntry preserves uniqueness of paths. -/
theorem addEntry_nodup (es : List IndexEntry) (e : IndexEntry)
    (h : (es.map (fun v => v.Path)).Nodup) :
    ((addEntry es e).map (fun v => v.Path)).Nodup := by
  by_cases hany : es.any (fun v => v.Path = e.Path) = true
  · rw [addEntry_paths_of_any es e hany]
    exact h
  · unfold addEntry
    rw [if_neg hany, List.map_append]
    have hnotmem : e.Path ∉ es.map (fun v => v.Path) := by
      intro hmem
      rcases List.mem_map.mp hmem with ⟨v, hv, hvp⟩
      exact hany (List.any_eq_true.mpr ⟨v, hv, by simp [hvp]⟩)
    simp [List.nodup_append, h, hnotmem]

/-- C6: starting from the fresh empty index, any sequence of Add calls
leaves at most one entry per path (paths are unique), and an Add whose
path is already present replaces the entry in place: the entry list keeps
its length and its path sequence while the new entry becomes a member. -/
theorem add_unique_paths :
    (∀ adds : List IndexEntry,
      ((List.foldl addEntry [] adds).map (fun v => v.Path)).Nodup) ∧
    (∀ (es : List IndexEntry) (e : IndexEntry), e.Path ∈ es.map (fun v => v.Path) →
      (addEntry es e).map (fun v => v.Path) = es.map (fun v => v.Path) ∧
      (addEntry es e).length = es.length ∧ e ∈ addEntry es e) := by
  constructor
  · have hgen : ∀ (adds start : List IndexEntry),
        ((start.map (fun v => v.Path)).Nodup) →
        ((List.foldl addEntry start adds).map (fun v => v.Path)).Nodup := by
      intro adds
      induction adds with
      | nil => intro start h; exact h
      | cons a rest ih =>
        intro start h
        exact ih (addEntry start a) (addEntry_nodup start a h)
    intro adds
    exact hgen adds [] (by simp)
  · intro es e hmem
    have hany : es.any (fun v => v.Path = e.Path) = true := by
      rcases List.mem_map.mp hmem with ⟨v, hv, hvp⟩
      exact List.any_eq_true.mpr ⟨v, hv, by simp [hvp]⟩
    refine ⟨addEntry_paths_of_any es e hany, ?_, ?_⟩
    · unfold addEntry
      rw [if_pos hany, List.length_map]
    · unfold addEntry
      rw [if_pos hany]
      rcases List.mem_map.mp hmem with ⟨v, hv, hvp⟩
      exact List.mem_map.mpr ⟨v, hv, by simp [hvp]⟩

/-- Witness for add_unique_paths: re-staging path a (with different
metadata) twice plus staging path b yields unique paths, and the re-stage
replaced in place. -/
theorem add_unique_paths_witness :
    ((List.foldl addEntry [] [entryOfPath "a", entryOfPath "a", entryOfPath "b"]).map
      (fun v => v.Path)).Nodup ∧
    (addEntry [entryOfPath "a"] { entryOfPath "a" with FileSize := 7 }).map
      (fun v => v.Path) = [entryOfPath "a"].map (fun v => v.Path) :=
  ⟨add_unique_paths.1 [entryOfPath "a", entryOfPath "a", entryOfPath "b"],
   (add_unique_paths.2 [entryOfPath "a"] { entryOfPath "a" with FileSize := 7 }
     (by decide)).1⟩

/-- Helper: upsert when the path already exists. -/
theorem upsertObj_pos (l : List (String × GitObj)) (p : String) (v : GitObj)
    (hany : l.any (fun kv => kv.1 = p) = true) :
    upsertObj l p v = l.map (fun kv => if kv.1 = p then (p, v) else kv) := by
  unfold upsertObj
  rw [if_pos hany]

/-- Helper: upsert when the path is new. -/
theorem upsertObj_neg (l : List (String × GitObj)) (p : String) (v : GitObj)
    (hany : ¬ l.any (fun kv => kv.1 = p) = true) :
    upsertObj l p v = l ++ [(p, v)] := by
  unfold upsertObj
  rw [if_neg hany]

/-- Helper: the written file is present after an upsert. -/
theorem mem_upsertObj_self (l : List (String × GitObj)) (p : String) (v : GitObj) :
    (p, v) ∈ upsertObj l p v := by
  by_cases hany : l.any (fun kv => kv.1 = p) = true
  · rw [upsertObj_pos l p v hany]
    rcases List.any_eq_true.mp hany with ⟨kv, hkv, hp⟩
    simp only [decide_eq_true_eq] at hp
    exact List.mem_map.mpr ⟨kv, hkv, by simp [hp]⟩
  · rw [upsertObj_neg l p v hany]
    simp

/-- Helper: upserting the same file content twice is the same as once. -/
theorem upsertObj_idem (l : List (String × GitObj)) (p : String) (v : GitObj) :
    upsertObj (upsertObj l p v) p v = upsertObj l p v := by
  have hany2 : (upsertObj l p v).any (fun kv => kv.1 = p) = true :=
    List.any_eq_true.mpr ⟨(p, v), mem_upsertObj_self l p v, by simp⟩
  rw [upsertObj_pos _ p v hany2]
  by_cases hany : l.any (fun kv => kv.1 = p) = true
  · rw [upsertObj_pos l p v hany, List.map_map]
    apply List.map_eq_map_iff.mpr
    intro kv _
    by_cases hkv : kv.1 = p
    · simp [hkv]
    · simp [hkv]
  · rw [upsertObj_neg l p v hany, List.map_append]
    have hall : ∀ kv ∈ l, ¬ kv.1 = p := by
      intro kv hkv hp
      exact hany (List.any_eq_true.mpr ⟨kv, hkv, by simp [hp]⟩)
    have hmap : l.map (fun kv => if kv.1 = p then (p, v) else kv) = l := by
      conv_rhs => rw [← List.map_id l]
      apply List.map_eq_map_iff.mpr
      intro kv hkv
      simp [hall kv hkv]
    simp [hmap]

/-- Helper: replacing the entry at an existing unique path leaves exactly
one entry at that path. -/
theorem countP_replace (l : List (String × GitObj)) (p : String) (v : GitObj)
    (hnd : (l.map Prod.fst).Nodup) (hany : l.any (fun kv => kv.1 = p) = true) :
    (l.map (fun kv => if kv.1 = p then (p, v) else kv)).countP (fun kv => kv.1 = p) = 1 := by
  induction l with
  | nil => simp at hany
  | cons a rest ih =>
    simp only [List.map_cons, List.nodup_cons] at hnd
    by_cases hap : a.1 = p
    · have hrest0 : ∀ kv ∈ rest, ¬ kv.1 = p := by
        intro kv hkv hp
        apply hnd.1
        have hin : p ∈ rest.map Prod.fst := List.mem_map.mpr ⟨kv, hkv, hp⟩
        rw [hap]
        exact hin
      have hmap : rest.map (fun kv => if kv.1 = p then (p, v) else kv) = rest := by
        conv_rhs => rw [← List.map_id rest]
        apply List.map_eq_map_iff.mpr
        intro kv hkv
        simp [hrest0 kv hkv]
      have hzero : rest.countP (fun kv => decide (kv.1 = p)) = 0 := by
        rw [List.countP_eq_zero]
        intro kv hkv
        simp [hrest0 kv hkv]
      simp only [List.map_cons, if_pos hap, hmap, List.countP_cons]
      simp [hzero]
    · have hanyr : rest.any (fun kv => kv.1 = p) = true := by
        rcases List.any_eq_true.mp hany with ⟨kv, hkv, hkp⟩
        simp only [decide_eq_true_eq] at hkp
        rcases List.mem_cons.mp hkv with hkva | hkvr
        · exact absurd (hkva ▸ hkp) hap
        · exact List.any_eq_true.mpr ⟨kv, hkvr, by simp [hkp]⟩
      simp only [List.map_cons, if_neg hap, List.countP_cons]
      rw [ih hnd.2 hanyr]
      simp [hap]

/-- Helper: with unique paths on disk, one upsert leaves exactly one file
at the target path. -/
theorem countP_upsertObj (l : List (String × GitObj)) (p : String) (v : GitObj)
    (h : (l.map Prod.fst).Nodup) :
    (upsertObj l p v).countP (fun kv => kv.1 = p) = 1 := by
  by_cases hany : l.any (fun kv => kv.1 = p) = true
  · rw [upsertObj_pos l p v hany]
    exact countP_replace l p v h hany
  · rw [upsertObj_neg l p v hany]
    have hall : ∀ kv ∈ l, ¬ kv.1 = p := by
      intro kv hkv hp
      exact hany (List.any_eq_true.mpr ⟨kv, hkv, by simp [hp]⟩)
    rw [List.countP_append]
    have h0 : l.countP (fun kv => decide (kv.1 = p)) = 0 := by
      rw [List.countP_eq_zero]
      intro kv hkv
      simp [hall kv hkv]
    simp [h0]

/-- C7: HashObject returns exactly the digest StoreObject returns and
performs no write; byte-identical marshalled content gets the identical
digest and fan-out path, and storing the same object twice is a no-op for
the filesystem, leaving exactly one object file at that path. -/
theorem hash_only_agrees_with_store (hf : HashFn) (o : GitObj)
    (fsys : List (String × GitObj)) :
    (hashObject hf o fsys).1 = (storeObj hf o fsys).1 ∧
    (hashObject hf o fsys).2 = fsys ∧
    (∀ o2, marshalObj o2 = marshalObj o →
      (storeObj hf o2 fsys).1 = (storeObj hf o fsys).1 ∧
      objPath (hexStr (storeObj hf o2 fsys).1) = objPath (hexStr (storeObj hf o fsys).1)) ∧
    (storeObj hf o (storeObj hf o fsys).2).2 = (storeObj hf o fsys).2 ∧
    ((fsys.map Prod.fst).Nodup →
      (storeObj hf o fsys).2.countP
        (fun kv => kv.1 = objPath (hexStr (hf (marshalObj o)))) = 1) := by
  refine ⟨rfl, rfl, ?_, ?_, ?_⟩
  · intro o2 hmo
    simp [storeObj, hmo]
  · simp only [storeObj]
    exact upsertObj_idem fsys (objPath (hexStr (hf (marshalObj o)))) o
  · intro hnd
    simp only [storeObj]
    exact countP_upsertObj fsys (objPath (hexStr (hf (marshalObj o)))) o hnd

/-- Helper: the tree-synthesis loop never touches the branch pointer or
the staged entries, provided the recursive call does not either. -/
theorem wstLoop_pres (recL : String → MState → (Except String (List Nat)) × MState)
    (subT : String) (es : List IndexEntry)
    (hrec : ∀ d s, (recL d s).2.refsMaster = s.refsMaster ∧
      (recL d s).2.indexEntries = s.indexEntries) :
    ∀ (children : List (String × TreeEntry)) (st : MState),
      (wstLoop recL subT es children st).2.refsMaster = st.refsMaster ∧
      (wstLoop recL subT es children st).2.indexEntries = st.indexEntries := by
  induction es with
  | nil => intro children st; exact ⟨rfl, rfl⟩
  | cons e rest ih =>
    intro children st
    simp only [wstLoop]
    by_cases h1 : (splitPath e.Path).1 = subT
    · rw [if_pos h1]
      exact ih _ _
    · rw [if_neg h1]
      by_cases h2 : strHasPre subT (splitPath e.Path).1 = true
      · rw [if_pos h2]
        by_cases h3 : lookupTE children (firstSeg (trimPre (splitPath e.Path).1 subT)) = true
        · rw [if_pos h3]
          exact ih _ _
        · rw [if_neg h3]
          rcases hr : recL (joinSlash subT (firstSeg (trimPre (splitPath e.Path).1 subT))) st
            with ⟨res, st2⟩
          have hpres := hrec (joinSlash subT (firstSeg (trimPre (splitPath e.Path).1 subT))) st
          rw [hr] at hpres
          cases res with
          | error m => exact ⟨hpres.1, hpres.2⟩
          | ok hsh =>
            have hih := ih (upsertTE children (firstSeg (trimPre (splitPath e.Path).1 subT))
              ⟨0o40000, firstSeg (trimPre (splitPath e.Path).1 subT), hsh⟩) st2
            exact ⟨hih.1.trans hpres.1, hih.2.trans hpres.2⟩
      · rw [if_neg h2]
        exact ih _ _

/-- Helper: writeSubTree only writes objects and grows the call log; the
branch pointer and the staged entries are untouched. -/
theorem writeSubTree_pres (hf : HashFn) (fuel : Nat) (entries : List IndexEntry) :
    ∀ (subT : String) (st : MState),
      (writeSubTree hf fuel subT entries st).2.refsMaster = st.refsMaster ∧
      (writeSubTree hf fuel subT entries st).2.indexEntries = st.indexEntries := by
  induction fuel with
  | zero => intro subT st; exact ⟨rfl, rfl⟩
  | succ fuel ih =>
    intro subT st
    simp only [writeSubTree]
    have hloop := wstLoop_pres (fun d s => writeSubTree hf fuel d entries s) (normPre subT)
      entries (fun d s => ih d s) [] { st with calls := st.calls ++ [normPre subT] }
    rcases hl : wstLoop (fun d s => writeSubTree hf fuel d entries s) (normPre subT) entries []
      { st with calls := st.calls ++ [normPre subT] } with ⟨res, st2⟩
    rw [hl] at hloop
    cases res with
    | error m => exact ⟨hloop.1, hloop.2⟩
    | ok children =>
      dsimp only
      by_cases hc : 0 < children.length
      · rw [if_pos hc]
        exact ⟨hloop.1, hloop.2⟩
      · rw [if_neg hc]
        exact ⟨hloop.1, hloop.2⟩

/-- Helper: a predicate false on every element leaves dropWhile inert. -/
theorem dropWhile_eq_self_of_all (p : Char → Bool) (l : List Char)
    (h : ∀ c ∈ l, p c = false) : l.dropWhile p = l := by
  cases l with
  | nil => rfl
  | cons a rest =>
    rw [List.dropWhile_cons, h a (by simp)]
    simp

/-- Helper: hex digits of bytes are never whitespace. -/
theorem hexChars_not_space (l : List Nat) : ∀ c ∈ hexChars l, isSpaceB c = false := by
  induction l with
  | nil => intro c hc; cases hc
  | cons b rest ih =>
    intro c hc
    simp only [hexChars, List.mem_cons] at hc
    rcases hc with h1 | h2 | h3
    · have hb : b / 16 % 16 < 16 := Nat.mod_lt _ (by omega)
      subst h1
      unfold hexDigit
      interval_cases h : b / 16 % 16 <;> decide
    · have hb : b % 16 < 16 := Nat.mod_lt _ (by omega)
      subst h2
      unfold hexDigit
      interval_cases h : b % 16 <;> decide
    · exact ih c h3

/-- Helper: reading back a branch pointer written as hex digest plus
newline yields exactly the hex digest. -/
theorem currentHead_hex (ph : List Nat) :
    currentHead (some (hexStr ph ++ "\n")) = hexStr ph := by
  have hdata : (hexStr ph ++ "\n").data = hexChars ph ++ ['\n'] := by
    simp [hexStr]
  simp only [currentHead, hdata]
  have hns := hexChars_not_space ph
  have h1 : (hexChars ph ++ ['\n']).dropWhile isSpaceB = hexChars ph ++ ['\n'] ∨
      hexChars ph = [] := by
    cases hx : hexChars ph with
    | nil => exact Or.inr rfl
    | cons a rest =>
      refine Or.inl ?_
      rw [List.cons_append, List.dropWhile_cons]
      have := hns a (by rw [hx]; simp)
      simp [this]
  rcases h1 with h1 | h1
  · rw [h1, List.reverse_append]
    simp only [List.reverse_cons, List.reverse_nil, List.nil_append, List.singleton_append,
      List.dropWhile_cons]
    have hnl : isSpaceB '\n' = true := by decide
    rw [hnl]
    simp only [if_pos]
    rw [dropWhile_eq_self_of_all isSpaceB (hexChars ph).reverse
      (fun c hc => hns c (List.mem_reverse.mp hc))]
    simp [hexStr]
  · rw [h1]
    simp only [hexStr, h1]
    decide

/-- Helper: setting a byte outside the window [lo, lo+n) leaves the slice
of that window unchanged. -/
theorem drop_take_set_outside (l : List Nat) (p b lo n : Nat) (h : p < lo ∨ lo + n ≤ p) :
    ((l.set p b).drop lo).take n = (l.drop lo).take n := by
  apply List.ext_getElem?
  intro i
  rw [List.getElem?_take, List.getElem?_take]
  by_cases hi : i < n
  · rw [if_pos hi, if_pos hi, List.getElem?_drop, List.getElem?_drop]
    apply List.getElem?_set_ne
    omega
  · rw [if_neg hi, if_neg hi]

/-- C2 amended: for a persisted index file (the output of Marshal with the
supported version "2") and a single-byte change at an offset outside both
the trailing 20-byte digest and the 4-byte version field (bytes 4 to 7),
Read fails exactly with the checksum-mismatch error, under the SHA-1
abstraction hypotheses that digests are 20 bytes and that the altered
payload does not collide with the original. -/
theorem checksum_gate_amended (hf : HashFn) (idx : Index) (data : List Nat) (p b : Nat)
    (hhf : ∀ l, (hf l).length = 20)
    (hm : marshalIndex hf idx = Except.ok data)
    (hv : idx.Version = "2")
    (hp : p < data.length - 20)
    (hp48 : p < 4 ∨ 8 ≤ p)
    (hcol : hexStr (hf ((data.take (data.length - 20)).set p b)) ≠
      hexStr (hf (data.take (data.length - 20)))) :
    readIndex hf (some (data.set p b)) = ReadResult.err "digests don't match" := by
  unfold marshalIndex at hm
  rw [hv] at hm
  by_cases hs : (strBytes idx.Signature).length ≠ 4
  · rw [if_pos hs] at hm
    cases hm
  · rw [if_neg hs] at hm
    push_neg at hs
    have hatoi : atoi "2" = Except.ok 2 := by decide
    rw [hatoi] at hm
    dsimp only at hm
    injection hm with hm
    have hi2 : intToU32 2 = 2 := by decide
    rw [hi2] at hm
    set A := strBytes idx.Signature with hA
    set C := u32be idx.EntryCount with hC
    set E := ((sortByLt (fun a b => strLt a.Path b.Path) idx.Entries).map entryBytes).flatten
      with hE
    set P := A ++ u32be 2 ++ C ++ E with hP
    have hClen : C.length = 4 := by
      rw [hC]
      simp [u32be]
    have hPlen : P.length = 12 + E.length := by
      rw [hP]
      simp [hs, hClen, u32be]
      omega
    have h20 : (hf P).length = 20 := hhf P
    have hdlen : data.length = P.length + 20 := by
      rw [← hm]
      simp [h20]
    have hn20 : data.length - 20 = P.length := by omega
    have htake : data.take (data.length - 20) = P := by
      rw [hn20, ← hm]
      exact List.take_left' rfl
    have hdrop : data.drop (data.length - 20) = hf P := by
      rw [hn20, ← hm]
      exact List.drop_left' rfl
    have hv48 : (data.drop 4).take 4 = u32be 2 := by
      rw [← hm, hP]
      simp only [List.append_assoc]
      rw [List.drop_left' hs]
      exact List.take_left' rfl
    rw [htake] at hcol
    have hlen_set : (data.set p b).length = data.length := by simp
    simp only [readIndex]
    rw [hlen_set]
    rw [if_neg (by omega : ¬ data.length < 4), if_neg (by omega : ¬ data.length < 8),
      if_neg (by omega : ¬ data.length < 12), if_neg (by omega : ¬ data.length < 20)]
    have hvset : ((data.set p b).drop 4).take 4 = u32be 2 := by
      rw [drop_take_set_outside data p b 4 4 (by omega)]
      exact hv48
    rw [hvset]
    rw [if_neg (by decide : ¬ (toString (beU32 (u32be 2)) ≠ "2"))]
    have hdset : (data.set p b).drop (data.length - 20) = hf P := by
      rw [List.drop_set_of_lt _ _ (by omega : p < data.length - 20)]
      exact hdrop
    have htset : (data.set p b).take (data.length - 20) = P.set p b := by
      rw [List.set_take, htake]
    rw [hdset, htset]
    rw [if_pos (fun heq => hcol heq.symm)]

/-- Witness for checksum_gate_amended: flipping byte 0 (in the signature)
of the persisted empty index yields the checksum-mismatch error. -/
theorem checksum_gate_amended_witness :
    readIndex sumHash (some (exIdx0Bytes.set 0 1)) = ReadResult.err "digests don't match" :=
  checksum_gate_amended sumHash exIdx0 exIdx0Bytes 0 1
    (fun l => by simp [sumHash])
    (by decide) (by decide) (by decide) (Or.inl (by decide)) (by decide)

/-- C5: when tree synthesis succeeds, Commit stores a commit object whose
parent is exactly what currentHead reads from the branch pointer (empty
when the pointer file is absent, so Commit.Marshal emits no parent line;
the previous digest when the pointer holds a digest plus newline), and
afterwards the branch pointer holds exactly the new commit's hex digest
followed by a newline, while the referenced commit object is present in
the store (the pointer is only written over a stored commit). -/
theorem commit_chaining (hf : HashFn) (fuel : Nat) (author email : String)
    (unix offset : Int) (msg : String) (st : MState) (tH : List Nat)
    (hw : (writeTree hf fuel st).1 = Except.ok tH) :
    (commitOp hf fuel author email unix offset msg st).1 =
      Except.ok (hf (marshalObj (GitObj.commit (mkCommit author email unix offset msg
        (currentHead st.refsMaster) (hexStr tH))))) ∧
    (commitOp hf fuel author email unix offset msg st).2.refsMaster =
      some (hexStr (hf (marshalObj (GitObj.commit (mkCommit author email unix offset msg
        (currentHead st.refsMaster) (hexStr tH))))) ++ "\n") ∧
    (objPath (hexStr (hf (marshalObj (GitObj.commit (mkCommit author email unix offset msg
        (currentHead st.refsMaster) (hexStr tH)))))),
      GitObj.commit (mkCommit author email unix offset msg (currentHead st.refsMaster)
        (hexStr tH))) ∈ (commitOp hf fuel author email unix offset msg st).2.objects ∧
    (st.refsMaster = none →
      (mkCommit author email unix offset msg (currentHead st.refsMaster)
        (hexStr tH)).Parent = "" ∧
      parentPart (mkCommit author email unix offset msg (currentHead st.refsMaster)
        (hexStr tH)) = "") ∧
    (∀ prevHash : List Nat, st.refsMaster = some (hexStr prevHash ++ "\n") →
      (mkCommit author email unix offset msg (currentHead st.refsMaster)
        (hexStr tH)).Parent = hexStr prevHash) := by
  rcases hwt : writeSubTree hf fuel "." st.indexEntries st with ⟨res, st1⟩
  have hw2 : res = Except.ok tH := by
    have hx := hw
    unfold writeTree at hx
    rw [hwt] at hx
    exact hx
  subst hw2
  have hpres := writeSubTree_pres hf fuel st.indexEntries "." st
  rw [hwt] at hpres
  simp only [commitOp, writeTree]
  rw [hwt]
  dsimp only
  rw [hpres.1]
  refine ⟨rfl, rfl, ?_, ?_, ?_⟩
  · exact mem_upsertObj_self _ _ _
  · intro h0
    rw [h0]
    exact ⟨rfl, rfl⟩
  · intro ph hph
    rw [hph]
    exact currentHead_hex ph

/-- Witness for commit_chaining: the one-file first commit on a repository
with no branch pointer. -/
theorem commit_chaining_witness :
    (commitOp sumHash 2 "au" "em" 100 0 "init" exCommitState).1 =
      Except.ok (sumHash (marshalObj (GitObj.commit exCommitObj))) ∧
    (commitOp sumHash 2 "au" "em" 100 0 "init" exCommitState).2.refsMaster =
      some (hexStr (sumHash (marshalObj (GitObj.commit exCommitObj))) ++ "\n") := by
  have h := commit_chaining sumHash 2 "au" "em" 100 0 "init" exCommitState
    (sumHash (marshalObj exTreeF)) (by decide)
  exact ⟨h.1, h.2.1⟩

/-- Witness for hash_only_agrees_with_store on a concrete blob. -/
theorem hash_only_agrees_with_store_witness :
    (hashObject sumHash (GitObj.blob [104, 105]) []).1 =
      (storeObj sumHash (GitObj.blob [104, 105]) []).1 ∧
    (storeObj sumHash (GitObj.blob [104, 105]) []).2.countP
      (fun kv => kv.1 = objPath (hexStr (sumHash (marshalObj (GitObj.blob [104, 105]))))) = 1 :=
  ⟨(hash_only_agrees_with_store sumHash (GitObj.blob [104, 105]) []).1,
   (hash_only_agrees_with_store sumHash (GitObj.blob [104, 105]) []).2.2.2.2 (by decide)⟩

end Mgi
